import Mathlib

/-!
Verification development for the lily-bot live-chat song-queue program
(src/lily-bot.py).  The module-level globals of the program
(`song_list`, `current_idx`, `played_idx`, `active_streams`) are embedded
as one record `BotState`; Python dictionaries keyed by integers are
embedded as association lists with Python dict semantics (assignment
replaces in place or appends, `del` removes the key, iteration in the
program never depends on dict order).  Each command handler becomes a pure
function from `BotState` to `BotState` paired with a result describing the
reply the handler would send.
-/

set_option maxHeartbeats 1000000

/-- One requested song: the displayed text and the requester display name
(`song_list` values are the two-element lists `[title, author]`). -/
structure Song where
  title : List Char
  requester : List Char
deriving DecidableEq, Repr

/-- Association-list model of a Python dict with `Nat` keys: lookup finds
the first (in well-formed states, only) binding of the key. -/
def lookupA {β : Type} : List (Nat × β) → Nat → Option β
  | [], _ => none
  | (k, v) :: rest, key => if k = key then some v else lookupA rest key

/-- Python dict assignment `d[key] = v`: replace the binding in place when
the key is present, otherwise append the new binding at the end. -/
def setA {β : Type} : List (Nat × β) → Nat → β → List (Nat × β)
  | [], key, v => [(key, v)]
  | (k, w) :: rest, key, v =>
      if k = key then (k, v) :: rest else (k, w) :: setA rest key v

/-- Python `del d[key]`: remove the binding(s) of the key. -/
def delA {β : Type} (l : List (Nat × β)) (key : Nat) : List (Nat × β) :=
  l.filter (fun p => decide (¬ p.1 = key))

/-- The global state of the program: `song_list`, `current_idx`,
`played_idx` (lines 31-33) and `active_streams` (line 27, channel id to
video id). -/
structure BotState where
  song_list : List (Nat × Song)
  current_idx : Nat
  played_idx : Nat
  active_streams : List (Nat × List Char)
deriving DecidableEq, Repr

/-- The initial values of the globals (lines 27-33): empty queue, both
counters zero, no active streams. -/
def initialState : BotState := ⟨[], 0, 0, []⟩

/-- Python `text.startswith(pat)` on character lists. -/
def startsWith : List Char → List Char → Bool
  | _, [] => true
  | [], _ :: _ => false
  | c :: cs, p :: ps => c == p && startsWith cs ps

/-- The request marker checked at line 107: the four characters of the
string literal given to `startswith`. -/
def reqMarker : List Char := ['!', 'r', 'e', 'q']

/-- Shared queue-append used by both the poller (lines 122-123) and the
add command (lines 317-319): `current_idx += 1;
song_list[current_idx] = [entry.title, entry.requester]`. -/
def storeSong (s : BotState) (entry : Song) : BotState :=
  { s with current_idx := s.current_idx + 1,
           song_list := setA s.song_list (s.current_idx + 1) entry }

/-- What the poller forwards to the queue for one chat item
(lines 103-123): if the lowercased message text starts with the request
marker, the stored entry is `(message_text[5:], author)`; otherwise the
item is skipped. -/
def forwardedRequest (message_text author : List Char) : Option Song :=
  if startsWith (message_text.map Char.toLower) reqMarker then
    some ⟨message_text.drop 5, author⟩
  else none

/-- Queue effect of processing one (not previously seen) chat item in
`fetch_live_chat_messages` (lines 103-123). -/
def processChatItem (s : BotState) (message_text author : List Char) :
    BotState :=
  match forwardedRequest message_text author with
  | some entry => storeSong s entry
  | none => s

/-- The literal prepended by the add command (line 315). -/
def trakteerTag : List Char := "(Trakteer) - ".toList

inductive AddResult where
  | added (entry : Song)
  | malformedArg
  | noActiveSession
deriving DecidableEq, Repr

/-- The `add` command (lines 309-328).  `song.split("-")[1]` raises before
any state mutation when the argument has no dash, so the malformed case
leaves the state unchanged. -/
def addCmd (s : BotState) (channel : Nat) (song : List Char) :
    BotState × AddResult :=
  if (lookupA s.active_streams channel).isSome then
    match song.splitOn '-' with
    | p0 :: p1 :: _ =>
        let entry : Song := ⟨trakteerTag ++ p0, p1⟩
        (storeSong s entry, .added entry)
    | _ => (s, .malformedArg)
  else (s, .noActiveSession)

inductive CurrentResult where
  | empty
  | nothingPlayedNext (nxt : Option Song)
  | playing (entry : Option Song)
deriving DecidableEq, Repr

/-- The `current_song` command (lines 212-246); read-only. -/
def currentSong (s : BotState) : CurrentResult :=
  if s.song_list = [] then .empty
  else if s.played_idx = 0 then
    if 1 ≤ s.current_idx then .nothingPlayedNext (lookupA s.song_list 1)
    else .empty
  else .playing (lookupA s.song_list s.played_idx)

inductive NextResult where
  | emptyQueue
  | nowPlaying (current : Option Song) (nxt : Option Song)
  | atEnd
deriving DecidableEq, Repr

/-- The `next` command (lines 248-307): advance `played_idx` and report
the entry at the new position (plus the following entry when one exists). -/
def nextCmd (s : BotState) : BotState × NextResult :=
  if s.song_list = [] then (s, .emptyQueue)
  else if s.played_idx = 0 ∧ 1 ≤ s.current_idx then
    let s' := { s with played_idx := 1 }
    (s', .nowPlaying (lookupA s'.song_list 1)
          (if 1 < s.current_idx then lookupA s'.song_list 2 else none))
  else if s.played_idx < s.current_idx then
    let s' := { s with played_idx := s.played_idx + 1 }
    (s', .nowPlaying (lookupA s'.song_list s'.played_idx)
          (if s'.played_idx < s'.current_idx then
             lookupA s'.song_list (s'.played_idx + 1)
           else none))
  else (s, .atEnd)

inductive DeleteResult where
  | emptyQueue
  | invalidId
  | notFound
  | protectedSong
  | deleted (entry : Song)
deriving DecidableEq, Repr

/-- One iteration of the renumbering loop of `delete_song`
(lines 466-476): accumulator `(lst, new_id, npi)` stands for the rebuilt
`song_list`, `new_id`, and `new_played_id`. -/
def renumberStep (old : List (Nat × Song)) (old_played : Nat)
    (acc : List (Nat × Song) × Nat × Nat) (old_id : Nat) :
    List (Nat × Song) × Nat × Nat :=
  match lookupA old old_id with
  | none => acc
  | some song =>
      let npi := if old_id = old_played then acc.2.1
                 else if old_id < old_played ∧ acc.2.2 = 0 then acc.2.1
                 else acc.2.2
      (setA acc.1 acc.2.1 song, acc.2.1 + 1, npi)

/-- The renumbering loop of `delete_song` (lines 462-476):
`for old_id in range(1, current_idx + 1)` folded over the id list. -/
def runRenumber (old : List (Nat × Song)) (old_played : Nat)
    (ids : List Nat) (acc : List (Nat × Song) × Nat × Nat) :
    List (Nat × Song) × Nat × Nat :=
  ids.foldl (renumberStep old old_played) acc

/-- The `delete` command (lines 421-502).  Checks in source order: empty
queue, id range against `current_idx`, membership, protected (currently
playing) entry; then delete, pre-adjust `played_idx`, and either renumber
(non-empty remainder) or reset both counters to 0. -/
def deleteCmd (s : BotState) (song_id : Nat) : BotState × DeleteResult :=
  if s.song_list = [] then (s, .emptyQueue)
  else if song_id < 1 ∨ s.current_idx < song_id then (s, .invalidId)
  else
    match lookupA s.song_list song_id with
    | none => (s, .notFound)
    | some deleted_song =>
      if song_id = s.played_idx then (s, .protectedSong)
      else
        let sl := delA s.song_list song_id
        let p := if song_id < s.played_idx then s.played_idx - 1
                 else s.played_idx
        if sl = [] then
          ({ s with song_list := sl, current_idx := 0, played_idx := 0 },
           .deleted deleted_song)
        else
          let r := runRenumber sl p (List.range' 1 s.current_idx) ([], 1, 0)
          ({ s with song_list := r.1, current_idx := r.1.length,
                    played_idx := r.2.2 },
           .deleted deleted_song)

inductive SongStatus where
  | donePlayed
  | nowCurrent
  | upcoming
deriving DecidableEq, Repr

/-- The ids selected for display by `list_song` (lines 347-376), including
the windowing branches for queues above the 24-field display bound. -/
def songsToShow (s : BotState) : List Nat :=
  let total_songs := s.song_list.length
  if total_songs ≤ 24 then
    List.range' 1 s.current_idx
  else
    let part1 : List Nat :=
      if 0 < s.played_idx then
        let start_played := max 1 (s.played_idx - 2)
        List.range' start_played (s.played_idx + 1 - start_played)
      else []
    let part2 : List Nat :=
      if s.played_idx < s.current_idx then
        List.range' (s.played_idx + 1) (s.current_idx - s.played_idx)
      else []
    let sts := part1 ++ part2
    if 23 < sts.length then
      if 0 < s.played_idx then
        let max_next_songs := min 22 (s.current_idx - s.played_idx)
        s.played_idx :: List.range' (s.played_idx + 1) max_next_songs
      else
        List.range' 1 (min 23 s.current_idx)
    else sts

/-- The `list_song` command (lines 330-419); read-only.  Each shown id is
rendered with the entry at that id and a status determined by comparison
with `played_idx` (lines 391-411); the purely cosmetic gap marker is not
part of the observation. -/
def listSong (s : BotState) : List (Nat × Option Song × SongStatus) :=
  (songsToShow s).map (fun song_id =>
    (song_id, lookupA s.song_list song_id,
     if song_id < s.played_idx then SongStatus.donePlayed
     else if song_id = s.played_idx then SongStatus.nowCurrent
     else SongStatus.upcoming))

inductive StartResult where
  | noClient
  | invalidUrl
  | alreadyActive
  | started (video_id : List Char)
deriving DecidableEq, Repr

/-- The `start_live_chat` command (lines 160-190), with the URL parser
`extract_youtube_id` abstracted as the parameter `extract_id` (the claim
checked about this command holds for every parse outcome) and the
availability of the YouTube client as `youtube_ok`.  The queue reset at
lines 180-182 is commented out in the source and therefore absent. -/
def startLiveChat (extract_id : List Char → Option (List Char))
    (youtube_ok : Bool) (s : BotState) (channel : Nat) (url : List Char) :
    BotState × StartResult :=
  if ¬ youtube_ok then (s, .noClient)
  else
    match extract_id url with
    | none => (s, .invalidUrl)
    | some video_id =>
      if (lookupA s.active_streams channel).isSome then (s, .alreadyActive)
      else ({ s with active_streams := setA s.active_streams channel video_id },
            .started video_id)

/-- The queue state observable from a given channel.  Every queue reader
in the source (`current_song`, `list_song`, `next`, `delete`) reads the
module-level globals and never consults `ctx.channel` for the queue, so
the observation from any channel is the global triple. -/
def observedQueue (s : BotState) (channel : Nat) :
    List (Nat × Song) × Nat × Nat :=
  (s.song_list, s.current_idx, s.played_idx)

/-- Well-formedness of reachable queue states: the keys of `song_list`
are, in insertion order, exactly `1..current_idx`, and `played_idx` never
exceeds `current_idx`. -/
def WFQ (s : BotState) : Prop :=
  s.song_list.map Prod.fst = List.range' 1 s.current_idx ∧
  s.played_idx ≤ s.current_idx

instance (s : BotState) : Decidable (WFQ s) := by
  unfold WFQ; infer_instance

/-- The value of `played_idx` actually produced by `delete_song` on a
well-formed state when deleting id `k` with `played_idx = p` (derived
below in `deleteCmd_success_spec`): the pre-adjustment at lines 453-454
and the renumber remapping at lines 470-474 are both applied. -/
def postPlayed (p k : Nat) : Nat :=
  let op := if k < p then p - 1 else p
  if op = 0 then 0
  else if op < k then op
  else if op = k then (if 2 ≤ k then 1 else 0)
  else op - 1

/-- The queue-touching operations of the command surface and the poller. -/
inductive QueueOp where
  | chat (message_text author : List Char)
  | addTrakteer (channel : Nat) (song : List Char)
  | advance
  | deleteOp (song_id : Nat)
  | listOp
  | currentOp
deriving Repr

/-- State effect of one completed operation (the read-only commands
`list_song` and `current_song` compute their observation and leave the
state unchanged). -/
def applyOp (s : BotState) : QueueOp → BotState
  | .chat text author => processChatItem s text author
  | .addTrakteer ch song => (addCmd s ch song).1
  | .advance => (nextCmd s).1
  | .deleteOp song_id => (deleteCmd s song_id).1
  | .listOp => (fun _ => s) (listSong s)
  | .currentOp => (fun _ => s) (currentSong s)

/-- Iterated `next` command (state part). -/
def advanceN (s : BotState) : Nat → BotState
  | 0 => s
  | n + 1 => (nextCmd (advanceN s n)).1

/-- A trace of queue appends (poller forwarding or add command), with no
intervening deletes. -/
def appendAll (s : BotState) : List Song → BotState
  | [] => s
  | e :: rest => appendAll (storeSong s e) rest

/-! ### Association-list lemmas -/

lemma setA_eq_append {β : Type} (l : List (Nat × β)) (k : Nat) (v : β)
    (h : ∀ p ∈ l, p.1 ≠ k) : setA l k v = l ++ [(k, v)] := by
  induction l with
  | nil => rfl
  | cons hd tl ih =>
      have hne : hd.1 ≠ k := h hd (List.mem_cons_self hd tl)
      cases hd with
      | mk k' w =>
          simp only [setA, if_neg hne]
          rw [ih (fun p hp => h p (List.mem_cons_of_mem _ hp))]
          rfl

lemma lookupA_setA_self {β : Type} (l : List (Nat × β)) (k : Nat) (v : β) :
    lookupA (setA l k v) k = some v := by
  induction l with
  | nil => simp [setA, lookupA]
  | cons hd tl ih =>
      cases hd with
      | mk k' w =>
          by_cases hk : k' = k
          · simp [setA, lookupA, hk]
          · simp [setA, lookupA, hk, ih]

lemma delA_cons_same {β : Type} (k' : Nat) (w : β) (tl : List (Nat × β)) :
    delA ((k', w) :: tl) k' = delA tl k' := by
  simp [delA]

lemma delA_cons_ne {β : Type} (k k' : Nat) (w : β) (tl : List (Nat × β))
    (h : ¬ k' = k) : delA ((k', w) :: tl) k = (k', w) :: delA tl k := by
  simp [delA, h]

lemma lookupA_delA {β : Type} (l : List (Nat × β)) (k j : Nat) :
    lookupA (delA l k) j = if j = k then none else lookupA l j := by
  induction l with
  | nil => simp [delA, lookupA]
  | cons hd tl ih =>
      obtain ⟨k', w⟩ := hd
      by_cases hk : k' = k
      · subst hk
        rw [delA_cons_same, ih]
        by_cases hj : j = k'
        · simp [hj]
        · rw [if_neg hj, if_neg hj]
          simp only [lookupA]
          rw [if_neg (fun h : k' = j => hj h.symm)]
      · rw [delA_cons_ne _ _ _ _ hk]
        by_cases hj : k' = j
        · have hjk : ¬ j = k := fun h => hk (hj.trans h)
          rw [if_neg hjk]
          simp [lookupA, hj]
        · simp only [lookupA, if_neg hj, ih]

lemma lookupA_zip_range (vals : List Song) (a j : Nat) :
    lookupA ((List.range' a vals.length).zip vals) j =
      if a ≤ j ∧ j < a + vals.length then vals[j - a]? else none := by
  induction vals generalizing a with
  | nil => simp [lookupA]
  | cons v tl ih =>
      have hr : List.range' a (v :: tl).length =
          a :: List.range' (a + 1) tl.length := by
        rw [List.length_cons, List.range'_succ]
      rw [hr, List.zip_cons_cons]
      simp only [lookupA, List.length_cons]
      by_cases hj : a = j
      · rw [if_pos hj, if_pos (by omega)]
        subst hj
        simp
      · rw [if_neg hj, ih (a + 1)]
        by_cases h1 : a + 1 ≤ j ∧ j < a + 1 + tl.length
        · rw [if_pos h1, if_pos (by omega)]
          have h2 : j - a = (j - (a + 1)) + 1 := by omega
          rw [h2]
          simp
        · rw [if_neg h1, if_neg (by omega)]

/-! ### Well-formedness basics -/

lemma wfq_length (s : BotState) (h : WFQ s) :
    s.song_list.length = s.current_idx := by
  have := congrArg List.length h.1
  simpa using this

lemma wfq_song_list (s : BotState) (h : WFQ s) :
    s.song_list =
      (List.range' 1 s.current_idx).zip (s.song_list.map Prod.snd) := by
  rw [← h.1]
  exact @List.zip_of_prod _ _ _ _ s.song_list rfl rfl

lemma lookupA_wfq (s : BotState) (h : WFQ s) (j : Nat) :
    lookupA s.song_list j =
      if 1 ≤ j ∧ j ≤ s.current_idx then (s.song_list.map Prod.snd)[j - 1]?
      else none := by
  have hlen : (s.song_list.map Prod.snd).length = s.current_idx := by
    simp [wfq_length s h]
  conv_lhs => rw [wfq_song_list s h, ← hlen]
  rw [lookupA_zip_range]
  by_cases h1 : 1 ≤ j ∧ j ≤ s.current_idx
  · rw [if_pos (by omega), if_pos h1]
  · rw [if_neg (by omega), if_neg h1]

lemma keys_le_of_wfq (s : BotState) (h : WFQ s) :
    ∀ p ∈ s.song_list, 1 ≤ p.1 ∧ p.1 ≤ s.current_idx := by
  intro p hp
  have : p.1 ∈ s.song_list.map Prod.fst := List.mem_map_of_mem Prod.fst hp
  rw [h.1] at this
  rcases List.mem_range'.1 this with ⟨i, hi, hpe⟩
  omega

lemma wfq_song_list_ne_nil (s : BotState) (h : WFQ s)
    (hn : 1 ≤ s.current_idx) : s.song_list ≠ [] := by
  intro hnil
  have := wfq_length s h
  rw [hnil] at this
  simp at this
  omega

/-! ### Append (storeSong) lemmas -/

lemma storeSong_song_list (s : BotState) (e : Song) (h : WFQ s) :
    (storeSong s e).song_list = s.song_list ++ [(s.current_idx + 1, e)] := by
  unfold storeSong
  exact setA_eq_append _ _ _
    (fun p hp => by have := keys_le_of_wfq s h p hp; omega)

lemma storeSong_wfq (s : BotState) (e : Song) (h : WFQ s) :
    WFQ (storeSong s e) := by
  constructor
  · show (storeSong s e).song_list.map Prod.fst =
      List.range' 1 (storeSong s e).current_idx
    rw [storeSong_song_list s e h]
    show (s.song_list ++ [(s.current_idx + 1, e)]).map Prod.fst =
      List.range' 1 (s.current_idx + 1)
    rw [List.map_append, h.1, List.range'_1_concat]
    simp [Nat.add_comm]
  · show s.played_idx ≤ s.current_idx + 1
    have := h.2
    omega

/-! ### Renumbering-loop analysis -/

/-- Default song used to totalize indexing inside renumbering proofs. -/
def dSong : Song := ⟨[], []⟩

/-- Evolution of `new_played_id` across a run of consecutive surviving old
ids `a, a+1, ..., a+m-1` processed with `new_id` as the first fresh id. -/
def npiRun (a m new_id op npi : Nat) : Nat :=
  if a ≤ op ∧ op < a + m then new_id + (op - a)
  else if a < op ∧ 1 ≤ m ∧ npi = 0 then new_id
  else npi

lemma npiRun_succ (a m new_id op npi : Nat) (hnz : 1 ≤ new_id) :
    npiRun a (m + 1) new_id op npi =
      npiRun (a + 1) m (new_id + 1) op
        (if a = op then new_id
         else if a < op ∧ npi = 0 then new_id else npi) := by
  unfold npiRun
  split_ifs <;> omega

lemma runRenumber_cons (old : List (Nat × Song)) (q x : Nat) (xs : List Nat)
    (acc : List (Nat × Song) × Nat × Nat) :
    runRenumber old q (x :: xs) acc =
      runRenumber old q xs (renumberStep old q acc x) := rfl

lemma runRenumber_append (old : List (Nat × Song)) (q : Nat)
    (l1 l2 : List Nat) (acc : List (Nat × Song) × Nat × Nat) :
    runRenumber old q (l1 ++ l2) acc =
      runRenumber old q l2 (runRenumber old q l1 acc) := by
  simp [runRenumber, List.foldl_append]

lemma runRenumber_run (old : List (Nat × Song)) (op : Nat) (f : Nat → Song)
    (m : Nat) : ∀ (a : Nat) (lst : List (Nat × Song)) (new_id npi : Nat),
    (∀ j, a ≤ j → j < a + m → lookupA old j = some (f j)) →
    (∀ p ∈ lst, p.1 < new_id) → 1 ≤ new_id →
    runRenumber old op (List.range' a m) (lst, new_id, npi) =
      (lst ++ (List.range' new_id m).zip ((List.range' a m).map f),
       new_id + m, npiRun a m new_id op npi) := by
  induction m with
  | zero =>
      intro a lst new_id npi hsurv hkeys hnz
      have h0 : npiRun a 0 new_id op npi = npi := by
        unfold npiRun
        rw [if_neg (by omega), if_neg (by omega)]
      simp [runRenumber, h0]
  | succ m ih =>
      intro a lst new_id npi hsurv hkeys hnz
      rw [List.range'_succ, runRenumber_cons]
      have hla : lookupA old a = some (f a) :=
        hsurv a (Nat.le_refl a) (by omega)
      have hstep : renumberStep old op (lst, new_id, npi) a =
          (setA lst new_id (f a), new_id + 1,
           if a = op then new_id
           else if a < op ∧ npi = 0 then new_id else npi) := by
        unfold renumberStep
        rw [hla]
      have hset : setA lst new_id (f a) = lst ++ [(new_id, f a)] :=
        setA_eq_append _ _ _ (fun p hp => by have := hkeys p hp; omega)
      rw [hstep, hset]
      rw [ih (a + 1) (lst ++ [(new_id, f a)]) (new_id + 1) _
        (fun j hj1 hj2 => hsurv j (by omega) (by omega))
        (fun p hp => by
          rcases List.mem_append.1 hp with hp | hp
          · have := hkeys p hp; omega
          · simp at hp
            subst hp
            exact Nat.lt_succ_self _)
        (by omega)]
      rw [npiRun_succ a m new_id op npi hnz]
      rw [List.range'_succ, List.map_cons, List.zip_cons_cons]
      simp [List.append_assoc]
      omega

lemma map_getD_range (vals : List Song) (m : Nat) :
    ∀ a, 1 ≤ a → a - 1 + m ≤ vals.length →
    (List.range' a m).map (fun j => (vals[j - 1]?).getD dSong) =
      (vals.drop (a - 1)).take m := by
  induction m with
  | zero => intro a h1 h2; simp
  | succ m ih =>
      intro a h1 h2
      rw [List.range'_succ, List.map_cons]
      have hlt : a - 1 < vals.length := by omega
      rw [List.drop_eq_getElem_cons hlt, List.take_succ_cons]
      have hv : (vals[a - 1]?).getD dSong = vals[a - 1] := by
        rw [List.getElem?_eq_getElem hlt]
        rfl
      rw [hv]
      congr 1
      have h3 := ih (a + 1) (by omega) (by omega)
      rw [show a + 1 - 1 = (a - 1) + 1 by omega] at h3
      rw [h3]

lemma range'_split_at (k N : Nat) (h1 : 1 ≤ k) (h2 : k ≤ N) :
    List.range' 1 N =
      List.range' 1 (k - 1) ++ k :: List.range' (k + 1) (N - k) := by
  have e1 := List.range'_append 1 (k - 1) (1 + (N - k)) 1
  rw [show 1 + 1 * (k - 1) = k by omega] at e1
  rw [show 1 + (N - k) + (k - 1) = N by omega] at e1
  rw [show 1 + (N - k) = (N - k) + 1 by omega, List.range'_succ] at e1
  simpa using e1.symm

lemma npiRun_phases (p0 k N : Nat) (h1 : 1 ≤ k) (h2 : k ≤ N) (hp : p0 ≤ N)
    (hpk : ¬ k = p0) :
    npiRun (k + 1) (N - k) k (if k < p0 then p0 - 1 else p0)
      (npiRun 1 (k - 1) 1 (if k < p0 then p0 - 1 else p0) 0) =
      postPlayed p0 k := by
  simp only [npiRun, postPlayed, eq_self_iff_true, and_true]
  by_cases hkp0 : k < p0
  · rw [if_pos hkp0]
    split_ifs <;> omega
  · rw [if_neg hkp0]
    split_ifs <;> omega

lemma postPlayed_le (p0 k N : Nat) (h1 : 1 ≤ k) (h2 : k ≤ N) (hp : p0 ≤ N)
    (hpk : ¬ k = p0) : postPlayed p0 k ≤ N - 1 := by
  simp only [postPlayed]
  split_ifs <;> omega

lemma renumberStep_skip (old : List (Nat × Song)) (q old_id : Nat)
    (acc : List (Nat × Song) × Nat × Nat)
    (hl : lookupA old old_id = none) :
    renumberStep old q acc old_id = acc := by
  simp [renumberStep, hl]

/-- Full characterization of a successful delete on a well-formed state:
the rebuilt map is the old value sequence minus the deleted entry,
renumbered densely from 1, and the new `played_idx` is `postPlayed`. -/
lemma deleteCmd_success_spec (s : BotState) (k : Nat) (res : Song)
    (h : WFQ s) (hk1 : 1 ≤ k) (hk2 : k ≤ s.current_idx)
    (hkp : ¬ k = s.played_idx) (hres : lookupA s.song_list k = some res) :
    deleteCmd s k =
      ({ s with
         song_list := (List.range' 1 (s.current_idx - 1)).zip
                        ((s.song_list.map Prod.snd).eraseIdx (k - 1)),
         current_idx := s.current_idx - 1,
         played_idx := postPlayed s.played_idx k },
       .deleted res) := by
  have hlen : (s.song_list.map Prod.snd).length = s.current_idx := by
    simp [wfq_length s h]
  have hne : s.song_list ≠ [] := wfq_song_list_ne_nil s h (by omega)
  simp only [deleteCmd]
  rw [if_neg hne, if_neg (show ¬ (k < 1 ∨ s.current_idx < k) by omega)]
  split
  · rename_i heq
    rw [heq] at hres
    simp at hres
  · rename_i d heq
    rw [hres] at heq
    injection heq with hd
    subst d
    rw [if_neg hkp]
    by_cases hci1 : s.current_idx = 1
    · have hk : k = 1 := by omega
      have hp0 : s.played_idx = 0 := by have := h.2; omega
      subst hk
      have hl1 : s.song_list.length = 1 := by rw [wfq_length s h, hci1]
      obtain ⟨p1, hp1⟩ := List.length_eq_one.1 hl1
      obtain ⟨a, b⟩ := p1
      have hkey : a = 1 := by
        have hh := h.1
        rw [hp1, hci1] at hh
        simpa using hh
      have hval : b = res := by
        rw [hp1] at hres
        subst hkey
        simpa [lookupA] using hres
      subst hkey
      subst b
      rw [hp1, hci1, hp0]
      have hdel : delA [((1 : Nat), res)] 1 = [] := by simp [delA]
      rw [if_pos hdel, hdel]
      simp [postPlayed]
    · have hci2 : 2 ≤ s.current_idx := by omega
      have hsl_ne : ¬ delA s.song_list k = [] := by
        intro hnil
        have hj0 : ∃ j0, ¬ j0 = k ∧ 1 ≤ j0 ∧ j0 ≤ s.current_idx := by
          by_cases hk1' : k = 1
          · exact ⟨2, by omega, by omega, by omega⟩
          · exact ⟨1, by omega, by omega, by omega⟩
        obtain ⟨j0, hj0k, hj01, hj0ci⟩ := hj0
        have h1 := lookupA_delA s.song_list k j0
        rw [hnil, if_neg hj0k, lookupA_wfq s h j0,
          if_pos ⟨hj01, hj0ci⟩] at h1
        rw [List.getElem?_eq_getElem
          (show j0 - 1 < (s.song_list.map Prod.snd).length by omega)] at h1
        simp [lookupA] at h1
      rw [if_neg hsl_ne]
      have hfsurv : ∀ j, 1 ≤ j → j ≤ s.current_idx → ¬ j = k →
          lookupA (delA s.song_list k) j =
            some (((s.song_list.map Prod.snd)[j - 1]?).getD dSong) := by
        intro j hj1 hj2 hjk
        rw [lookupA_delA, if_neg hjk, lookupA_wfq s h j, if_pos ⟨hj1, hj2⟩]
        rw [List.getElem?_eq_getElem
          (show j - 1 < (s.song_list.map Prod.snd).length by omega)]
        rfl
      have hmain : runRenumber (delA s.song_list k)
          (if k < s.played_idx then s.played_idx - 1 else s.played_idx)
          (List.range' 1 s.current_idx) ([], 1, 0) =
          ((List.range' 1 (s.current_idx - 1)).zip
             ((s.song_list.map Prod.snd).eraseIdx (k - 1)),
           s.current_idx, postPlayed s.played_idx k) := by
        rw [range'_split_at k s.current_idx hk1 hk2, runRenumber_append]
        rw [runRenumber_run (delA s.song_list k)
          (if k < s.played_idx then s.played_idx - 1 else s.played_idx)
          (fun j => ((s.song_list.map Prod.snd)[j - 1]?).getD dSong)
          (k - 1) 1 [] 1 0
          (fun j hj1 hj2 => hfsurv j hj1 (by omega) (by omega))
          (by simp) (by omega)]
        rw [runRenumber_cons]
        rw [renumberStep_skip _ _ _ _ (by rw [lookupA_delA]; simp)]
        rw [show 1 + (k - 1) = k by omega]
        rw [runRenumber_run (delA s.song_list k)
          (if k < s.played_idx then s.played_idx - 1 else s.played_idx)
          (fun j => ((s.song_list.map Prod.snd)[j - 1]?).getD dSong)
          (s.current_idx - k) (k + 1)
          ([] ++ (List.range' 1 (k - 1)).zip
            ((List.range' 1 (k - 1)).map
              (fun j => ((s.song_list.map Prod.snd)[j - 1]?).getD dSong)))
          k (npiRun 1 (k - 1) 1
            (if k < s.played_idx then s.played_idx - 1 else s.played_idx) 0)
          (fun j hj1 hj2 => hfsurv j (by omega) (by omega) (by omega))
          (fun p hp => by
            obtain ⟨a, b⟩ := p
            rw [List.nil_append] at hp
            have h1 := (List.of_mem_zip hp).1
            rcases List.mem_range'.1 h1 with ⟨i, hi, he⟩
            show a < k
            omega)
          (by omega)]
        rw [npiRun_phases s.played_idx k s.current_idx hk1 hk2 h.2
          (fun he => hkp he)]
        have hm1 : (List.range' 1 (k - 1)).map
            (fun j => ((s.song_list.map Prod.snd)[j - 1]?).getD dSong) =
            (s.song_list.map Prod.snd).take (k - 1) := by
          rw [map_getD_range _ _ 1 (by omega) (by omega)]
          simp
        have hm2 : (List.range' (k + 1) (s.current_idx - k)).map
            (fun j => ((s.song_list.map Prod.snd)[j - 1]?).getD dSong) =
            (s.song_list.map Prod.snd).drop k := by
          rw [map_getD_range _ _ (k + 1) (by omega) (by omega)]
          rw [show k + 1 - 1 = k by omega]
          exact List.take_of_length_le (by rw [List.length_drop]; omega)
        rw [hm1, hm2, List.nil_append]
        rw [← List.zip_append
          (by rw [List.length_range', List.length_take]; omega)]
        have hr : List.range' 1 (k - 1) ++ List.range' k (s.current_idx - k)
            = List.range' 1 (s.current_idx - 1) := by
          have e := List.range'_append 1 (k - 1) (s.current_idx - k) 1
          rw [show 1 + 1 * (k - 1) = k by omega] at e
          rw [show s.current_idx - k + (k - 1) = s.current_idx - 1
            by omega] at e
          exact e
        have hv : (s.song_list.map Prod.snd).take (k - 1) ++
            (s.song_list.map Prod.snd).drop k =
            (s.song_list.map Prod.snd).eraseIdx (k - 1) := by
          rw [List.eraseIdx_eq_take_drop_succ,
            show k - 1 + 1 = k by omega]
        rw [hr, hv, show k + (s.current_idx - k) = s.current_idx by omega]
      have e1 : (runRenumber (delA s.song_list k)
          (if k < s.played_idx then s.played_idx - 1 else s.played_idx)
          (List.range' 1 s.current_idx) ([], 1, 0)).1 =
          (List.range' 1 (s.current_idx - 1)).zip
            ((s.song_list.map Prod.snd).eraseIdx (k - 1)) := by
        rw [hmain]
      have e2 : (runRenumber (delA s.song_list k)
          (if k < s.played_idx then s.played_idx - 1 else s.played_idx)
          (List.range' 1 s.current_idx) ([], 1, 0)).2.2 =
          postPlayed s.played_idx k := by
        rw [hmain]
      have hlenX : ((List.range' 1 (s.current_idx - 1)).zip
          ((s.song_list.map Prod.snd).eraseIdx (k - 1))).length =
          s.current_idx - 1 := by
        rw [List.length_zip, List.length_range', List.length_eraseIdx]
        rw [hlen, if_pos (by omega)]
        omega
      rw [e1, e2, hlenX]

/-- Success inversion: a delete that returns `deleted` was in range, found
its entry, and did not hit the protected (currently playing) id. -/
lemma deleteCmd_deleted_inv (s : BotState) (k : Nat) (t : BotState)
    (res : Song) (hd : deleteCmd s k = (t, .deleted res)) :
    s.song_list ≠ [] ∧ 1 ≤ k ∧ k ≤ s.current_idx ∧
    lookupA s.song_list k = some res ∧ ¬ k = s.played_idx := by
  by_cases h1 : s.song_list = []
  · rw [deleteCmd, if_pos h1] at hd
    exact absurd hd (by simp)
  · by_cases h2 : k < 1 ∨ s.current_idx < k
    · rw [deleteCmd, if_neg h1, if_pos h2] at hd
      exact absurd hd (by simp)
    · cases h3 : lookupA s.song_list k with
      | none =>
          simp only [deleteCmd, if_neg h1, if_neg h2, h3] at hd
          exact absurd hd (by simp)
      | some d =>
          by_cases h4 : k = s.played_idx
          · simp only [deleteCmd, if_neg h1, if_neg h2, h3,
              if_pos h4] at hd
            exact absurd hd (by simp)
          · refine ⟨h1, by omega, by omega, ?_, h4⟩
            simp only [deleteCmd, if_neg h1, if_neg h2, h3,
              if_neg h4] at hd
            by_cases h5 : delA s.song_list k = []
            · rw [if_pos h5] at hd
              have h6 := congrArg Prod.snd hd
              simp at h6
              rw [h6]
            · rw [if_neg h5] at hd
              have h6 := congrArg Prod.snd hd
              simp at h6
              rw [h6]

/-- A delete that does not return `deleted` leaves the state unchanged. -/
lemma deleteCmd_fail_state (s : BotState) (k : Nat)
    (hfail : ∀ res, (deleteCmd s k).2 ≠ DeleteResult.deleted res) :
    (deleteCmd s k).1 = s := by
  by_cases h1 : s.song_list = []
  · rw [deleteCmd, if_pos h1]
  · by_cases h2 : k < 1 ∨ s.current_idx < k
    · rw [deleteCmd, if_neg h1, if_pos h2]
    · cases h3 : lookupA s.song_list k with
      | none => simp only [deleteCmd, if_neg h1, if_neg h2, h3]
      | some d =>
          by_cases h4 : k = s.played_idx
          · simp only [deleteCmd, if_neg h1, if_neg h2, h3, if_pos h4]
          · exfalso
            apply hfail d
            simp only [deleteCmd, if_neg h1, if_neg h2, h3, if_neg h4]
            by_cases h5 : delA s.song_list k = []
            · rw [if_pos h5]
            · rw [if_neg h5]

/-! ### Invariant preservation -/

lemma processChatItem_wfq (s : BotState) (t a : List Char) (h : WFQ s) :
    WFQ (processChatItem s t a) := by
  unfold processChatItem
  cases hf : forwardedRequest t a with
  | none => exact h
  | some e => exact storeSong_wfq s e h

lemma addCmd_wfq (s : BotState) (ch : Nat) (song : List Char)
    (h : WFQ s) : WFQ (addCmd s ch song).1 := by
  unfold addCmd
  split_ifs with h1
  · cases hsp : song.splitOn '-' with
    | nil => exact h
    | cons p0 rest =>
        cases rest with
        | nil => exact h
        | cons p1 rest2 => exact storeSong_wfq s _ h
  · exact h

lemma nextCmd_wfq (s : BotState) (h : WFQ s) : WFQ (nextCmd s).1 := by
  unfold nextCmd
  by_cases h1 : s.song_list = []
  · rw [if_pos h1]; exact h
  · rw [if_neg h1]
    by_cases h2 : s.played_idx = 0 ∧ 1 ≤ s.current_idx
    · rw [if_pos h2]
      exact ⟨h.1, show (1 : Nat) ≤ s.current_idx by omega⟩
    · rw [if_neg h2]
      by_cases h3 : s.played_idx < s.current_idx
      · rw [if_pos h3]
        exact ⟨h.1, show s.played_idx + 1 ≤ s.current_idx by omega⟩
      · rw [if_neg h3]; exact h

lemma deleteCmd_wfq (s : BotState) (k : Nat) (h : WFQ s) :
    WFQ (deleteCmd s k).1 := by
  by_cases hsucc : ∃ res, (deleteCmd s k).2 = DeleteResult.deleted res
  · obtain ⟨res, hres⟩ := hsucc
    have hd : deleteCmd s k = ((deleteCmd s k).1, DeleteResult.deleted res) := by
      rw [← hres]
    obtain ⟨hne, hk1, hk2, hlook, hkp⟩ := deleteCmd_deleted_inv s k _ res hd
    have hspec := deleteCmd_success_spec s k res h hk1 hk2 hkp hlook
    rw [hspec]
    constructor
    · show ((List.range' 1 (s.current_idx - 1)).zip
        ((s.song_list.map Prod.snd).eraseIdx (k - 1))).map Prod.fst =
        List.range' 1 (s.current_idx - 1)
      apply List.map_fst_zip
      rw [List.length_range', List.length_eraseIdx]
      have hlen : (s.song_list.map Prod.snd).length = s.current_idx := by
        simp [wfq_length s h]
      rw [hlen, if_pos (by omega)]
    · show postPlayed s.played_idx k ≤ s.current_idx - 1
      exact postPlayed_le s.played_idx k s.current_idx hk1 hk2 h.2 hkp
  · push_neg at hsucc
    rw [deleteCmd_fail_state s k hsucc]
    exact h

/-- Every completed queue operation preserves well-formedness. -/
lemma wfq_applyOp (s : BotState) (op : QueueOp) (h : WFQ s) :
    WFQ (applyOp s op) := by
  cases op with
  | chat t a => exact processChatItem_wfq s t a h
  | addTrakteer ch song => exact addCmd_wfq s ch song h
  | advance => exact nextCmd_wfq s h
  | deleteOp k => exact deleteCmd_wfq s k h
  | listOp => exact h
  | currentOp => exact h

/-! ### Append traces and advance runs -/

lemma storeSong_current (s : BotState) (e : Song) :
    (storeSong s e).current_idx = s.current_idx + 1 := rfl

lemma storeSong_played (s : BotState) (e : Song) :
    (storeSong s e).played_idx = s.played_idx := rfl

lemma storeSong_active (s : BotState) (e : Song) :
    (storeSong s e).active_streams = s.active_streams := rfl

lemma storeSong_list (s : BotState) (e : Song) :
    (storeSong s e).song_list = setA s.song_list (s.current_idx + 1) e :=
  rfl

lemma lookupA_storeSong_self (s : BotState) (e : Song) :
    lookupA (storeSong s e).song_list (s.current_idx + 1) = some e :=
  lookupA_setA_self _ _ _

lemma appendAll_spec (es : List Song) : ∀ (s : BotState),
    (∀ p ∈ s.song_list, p.1 ≤ s.current_idx) →
    (appendAll s es).song_list =
      s.song_list ++ (List.range' (s.current_idx + 1) es.length).zip es ∧
    (appendAll s es).current_idx = s.current_idx + es.length ∧
    (appendAll s es).played_idx = s.played_idx ∧
    (appendAll s es).active_streams = s.active_streams := by
  induction es with
  | nil => intro s hk; simp [appendAll]
  | cons e rest ih =>
      intro s hk
      have hset : setA s.song_list (s.current_idx + 1) e =
          s.song_list ++ [(s.current_idx + 1, e)] :=
        setA_eq_append _ _ _ (fun p hp => by have := hk p hp; omega)
      have hk' : ∀ p ∈ (storeSong s e).song_list,
          p.1 ≤ (storeSong s e).current_idx := by
        intro p hp
        rw [storeSong_list, hset] at hp
        rw [storeSong_current]
        rcases List.mem_append.1 hp with hp | hp
        · have := hk p hp; omega
        · simp at hp
          subst hp
          exact Nat.le_refl _
      obtain ⟨h1, h2, h3, h4⟩ := ih (storeSong s e) hk'
      simp only [storeSong_list, storeSong_current, storeSong_played,
        storeSong_active] at h1 h2 h3 h4
      rw [hset] at h1
      refine ⟨?_, ?_, ?_, ?_⟩
      · show (appendAll (storeSong s e) rest).song_list = _
        rw [h1, List.length_cons, List.range'_succ, List.zip_cons_cons]
        simp [List.append_assoc]
      · show (appendAll (storeSong s e) rest).current_idx = _
        rw [h2, List.length_cons]
        omega
      · show (appendAll (storeSong s e) rest).played_idx = _
        rw [h3]
      · show (appendAll (storeSong s e) rest).active_streams = _
        rw [h4]

lemma nextCmd_mid (sl : List (Nat × Song)) (as : List (Nat × List Char))
    (ci i : Nat) (hne : sl ≠ []) (hi : i < ci) :
    nextCmd ⟨sl, ci, i, as⟩ =
      (⟨sl, ci, i + 1, as⟩,
       NextResult.nowPlaying (lookupA sl (i + 1))
         (if i + 1 < ci then lookupA sl (i + 2) else none)) := by
  unfold nextCmd
  by_cases hi0 : i = 0
  · subst hi0
    rw [if_neg hne, if_pos (show (0 : Nat) = 0 ∧ 1 ≤ ci from ⟨rfl, by omega⟩)]
  · rw [if_neg hne, if_neg (show ¬ ((i : Nat) = 0 ∧ 1 ≤ ci) by omega),
      if_pos (show i < ci from hi)]

lemma nextCmd_at_end (sl : List (Nat × Song))
    (as : List (Nat × List Char)) (N : Nat) (hne : sl ≠ []) (hN : 1 ≤ N) :
    nextCmd ⟨sl, N, N, as⟩ = (⟨sl, N, N, as⟩, NextResult.atEnd) := by
  unfold nextCmd
  rw [if_neg hne, if_neg (show ¬ ((N : Nat) = 0 ∧ 1 ≤ N) by omega),
    if_neg (show ¬ (N < N) by omega)]

lemma advanceN_eq (sl : List (Nat × Song)) (as : List (Nat × List Char))
    (ci : Nat) (hne : sl ≠ []) :
    ∀ i, i ≤ ci → advanceN ⟨sl, ci, 0, as⟩ i = ⟨sl, ci, i, as⟩ := by
  intro i
  induction i with
  | zero => intro _; rfl
  | succ i ih =>
      intro hlt
      show (nextCmd (advanceN ⟨sl, ci, 0, as⟩ i)).1 = _
      rw [ih (by omega), nextCmd_mid sl as ci i hne (by omega)]

/-! ### Claim theorems -/

/-- C1 (counterexample): queues are NOT isolated per scope.  The queue is
one set of module-level globals: with channel 1 active, an `add` issued in
channel 1 changes the queue observed from the distinct channel 2 (and the
output of `list_song` as run from channel 2). -/
theorem queue_not_scope_isolated_counterexample :
    (1 : Nat) ≠ 2 ∧
    observedQueue (addCmd ⟨[], 0, 0, [(1, ['v'])]⟩ 1 ['a', '-', 'b']).1 2 ≠
      observedQueue (⟨[], 0, 0, [(1, ['v'])]⟩ : BotState) 2 ∧
    listSong (addCmd ⟨[], 0, 0, [(1, ['v'])]⟩ 1 ['a', '-', 'b']).1 ≠
      listSong (⟨[], 0, 0, [(1, ['v'])]⟩ : BotState) := by decide

/-- C1 (amended): the queue is a single process-wide state shared by all
scopes: every scope observes the same queue triple, and an `add`
performed in a scope with an active session updates the queue observed
from every scope (including scopes other than the one the command ran
in). -/
theorem global_queue_shared_by_all_scopes (s : BotState) (c c' ch : Nat)
    (song p0 p1 : List Char) (rest : List (List Char))
    (hactive : (lookupA s.active_streams ch).isSome = true)
    (hsplit : song.splitOn '-' = p0 :: p1 :: rest) :
    observedQueue s c = observedQueue s c' ∧
    observedQueue (addCmd s ch song).1 c' =
      (setA s.song_list (s.current_idx + 1) ⟨trakteerTag ++ p0, p1⟩,
       s.current_idx + 1, s.played_idx) := by
  refine ⟨rfl, ?_⟩
  unfold addCmd
  rw [if_pos hactive, hsplit]
  rfl

theorem global_queue_shared_by_all_scopes_witness :
    observedQueue (⟨[], 0, 0, [(1, ['v'])]⟩ : BotState) 3 =
      observedQueue (⟨[], 0, 0, [(1, ['v'])]⟩ : BotState) 2 ∧
    observedQueue (addCmd ⟨[], 0, 0, [(1, ['v'])]⟩ 1 ['a', '-', 'b']).1 2 =
      (setA [] (0 + 1) ⟨trakteerTag ++ ['a'], ['b']⟩, 0 + 1, 0) :=
  global_queue_shared_by_all_scopes ⟨[], 0, 0, [(1, ['v'])]⟩ 3 2 1
    ['a', '-', 'b'] ['a'] ['b'] [] (by decide) (by decide)

/-- C2 (code bug): deleting entry 1 while entry 2 is playing leaves
`played_idx = 0`, not `played_idx = 1` as the spec requires: the code
both pre-decrements `played_idx` (line 454) and then remaps the already
decremented index through the renumbering loop (lines 470-474), so the
adjustment is applied twice. -/
theorem delete_before_played_divergence :
    deleteCmd ⟨[(1, ⟨['A'], ['a']⟩), (2, ⟨['B'], ['b']⟩)], 2, 2, []⟩ 1 =
      (⟨[(1, ⟨['B'], ['b']⟩)], 1, 0, []⟩, .deleted ⟨['A'], ['a']⟩) ∧
    (0 : Nat) ≠ 2 - 1 := by decide

/-- C3: a successful delete leaves sequence numbers exactly
`1..N-1` (dense, in order) and the surviving entries are the pre-delete
entries in order with the deleted one removed. -/
theorem delete_renumbers_densely (s t : BotState) (k : Nat) (res : Song)
    (h : WFQ s) (hd : deleteCmd s k = (t, DeleteResult.deleted res)) :
    t.song_list.map Prod.fst = List.range' 1 (s.current_idx - 1) ∧
    t.song_list.map Prod.snd =
      (s.song_list.map Prod.snd).eraseIdx (k - 1) := by
  obtain ⟨hne, hk1, hk2, hlook, hkp⟩ := deleteCmd_deleted_inv s k t res hd
  have hspec := deleteCmd_success_spec s k res h hk1 hk2 hkp hlook
  rw [hd] at hspec
  have hlen : (s.song_list.map Prod.snd).length = s.current_idx := by
    simp [wfq_length s h]
  have hlene : ((s.song_list.map Prod.snd).eraseIdx (k - 1)).length =
      s.current_idx - 1 := by
    rw [List.length_eraseIdx, hlen, if_pos (by omega)]
  have ht : t = { s with
      song_list := (List.range' 1 (s.current_idx - 1)).zip
        ((s.song_list.map Prod.snd).eraseIdx (k - 1)),
      current_idx := s.current_idx - 1,
      played_idx := postPlayed s.played_idx k } := (Prod.ext_iff.1 hspec).1
  rw [ht]
  constructor
  · show ((List.range' 1 (s.current_idx - 1)).zip
      ((s.song_list.map Prod.snd).eraseIdx (k - 1))).map Prod.fst = _
    apply List.map_fst_zip
    rw [List.length_range', hlene]
  · show ((List.range' 1 (s.current_idx - 1)).zip
      ((s.song_list.map Prod.snd).eraseIdx (k - 1))).map Prod.snd = _
    apply List.map_snd_zip
    rw [List.length_range', hlene]

theorem delete_renumbers_densely_witness :
    (⟨[(1, ⟨['B'], ['b']⟩)], 1, 0, []⟩ : BotState).song_list.map Prod.fst =
      List.range' 1 (2 - 1) ∧
    (⟨[(1, ⟨['B'], ['b']⟩)], 1, 0, []⟩ : BotState).song_list.map Prod.snd =
      ((⟨[(1, ⟨['A'], ['a']⟩), (2, ⟨['B'], ['b']⟩)], 2, 0, []⟩ :
        BotState).song_list.map Prod.snd).eraseIdx (1 - 1) :=
  delete_renumbers_densely
    ⟨[(1, ⟨['A'], ['a']⟩), (2, ⟨['B'], ['b']⟩)], 2, 0, []⟩
    ⟨[(1, ⟨['B'], ['b']⟩)], 1, 0, []⟩ 1 ⟨['A'], ['a']⟩
    (by decide) (by decide)

/-- C4: on any well-formed non-empty queue with `played_idx ≥ 1`,
deleting the currently playing id always fails with the protected-entry
error and returns the state unchanged. -/
theorem delete_played_protected (s : BotState) (h : WFQ s)
    (hne : s.song_list ≠ []) (hp : 1 ≤ s.played_idx) :
    deleteCmd s s.played_idx = (s, DeleteResult.protectedSong) := by
  have hp2 : s.played_idx ≤ s.current_idx := h.2
  have hlook : (lookupA s.song_list s.played_idx).isSome = true := by
    rw [lookupA_wfq s h, if_pos ⟨hp, hp2⟩]
    rw [List.getElem?_eq_getElem
      (show s.played_idx - 1 < (s.song_list.map Prod.snd).length by
        rw [List.length_map, wfq_length s h]; omega)]
    rfl
  obtain ⟨res, hres⟩ := Option.isSome_iff_exists.1 hlook
  rw [deleteCmd, if_neg hne,
    if_neg (show ¬ (s.played_idx < 1 ∨ s.current_idx < s.played_idx)
      by omega)]
  simp only [hres]
  rw [if_pos trivial]

theorem delete_played_protected_witness :
    deleteCmd ⟨[(1, ⟨['A'], ['a']⟩)], 1, 1, []⟩ 1 =
      (⟨[(1, ⟨['A'], ['a']⟩)], 1, 1, []⟩, DeleteResult.protectedSong) :=
  delete_played_protected ⟨[(1, ⟨['A'], ['a']⟩)], 1, 1, []⟩
    (by decide) (by decide) (by decide)

/-- C5: from a well-formed queue of size `N ≥ 1` with nothing played yet,
each of the first `N` `next` calls increments `played_idx` by one and
reports the entry at the new `played_idx` as now playing; after `N` calls
`played_idx = N`, and one further call returns `AtEnd` and changes
nothing. -/
theorem advance_n_times_then_at_end (s : BotState) (N : Nat) (h : WFQ s)
    (hp : s.played_idx = 0) (hN : s.current_idx = N) (h1 : 1 ≤ N) :
    (∀ i, i < N →
      (nextCmd (advanceN s i)).1.played_idx = i + 1 ∧
      (nextCmd (advanceN s i)).2 =
        NextResult.nowPlaying (lookupA s.song_list (i + 1))
          (if i + 1 < N then lookupA s.song_list (i + 2) else none)) ∧
    (advanceN s N).played_idx = N ∧
    nextCmd (advanceN s N) = (advanceN s N, NextResult.atEnd) := by
  obtain ⟨sl, ci, pi, as⟩ := s
  replace hp : pi = 0 := hp
  replace hN : ci = N := hN
  subst hp
  subst hN
  have hne : sl ≠ [] :=
    wfq_song_list_ne_nil ⟨sl, ci, 0, as⟩ h h1
  refine ⟨?_, ?_, ?_⟩
  · intro i hi
    rw [advanceN_eq sl as ci hne i (by omega),
      nextCmd_mid sl as ci i hne hi]
    exact ⟨rfl, rfl⟩
  · rw [advanceN_eq sl as ci hne ci (Nat.le_refl ci)]
  · rw [advanceN_eq sl as ci hne ci (Nat.le_refl ci)]
    exact nextCmd_at_end sl as ci hne h1

theorem advance_n_times_then_at_end_witness :
    (advanceN ⟨[(1, ⟨['A'], ['a']⟩)], 1, 0, []⟩ 1).played_idx = 1 ∧
    nextCmd (advanceN ⟨[(1, ⟨['A'], ['a']⟩)], 1, 0, []⟩ 1) =
      (advanceN ⟨[(1, ⟨['A'], ['a']⟩)], 1, 0, []⟩ 1, NextResult.atEnd) :=
  ⟨(advance_n_times_then_at_end ⟨[(1, ⟨['A'], ['a']⟩)], 1, 0, []⟩ 1
      (by decide) rfl rfl (by decide)).2.1,
   (advance_n_times_then_at_end ⟨[(1, ⟨['A'], ['a']⟩)], 1, 0, []⟩ 1
      (by decide) rfl rfl (by decide)).2.2⟩

/-- C6: the invariant `0 ≤ played_idx ≤ N` (with `N` the number of queue
entries) holds in the initial state and is preserved, together with
well-formedness, by every completed operation: append (poller item or
add), advance, delete (successful or failing), list, and current. -/
theorem played_idx_bounded_invariant (s : BotState) (op : QueueOp) :
    (WFQ initialState ∧
      initialState.played_idx ≤ initialState.song_list.length) ∧
    (WFQ s → WFQ (applyOp s op) ∧
      (applyOp s op).played_idx ≤ (applyOp s op).song_list.length) := by
  refine ⟨⟨by decide, by decide⟩, fun h => ?_⟩
  have h2 := wfq_applyOp s op h
  refine ⟨h2, ?_⟩
  rw [wfq_length _ h2]
  exact h2.2

theorem played_idx_bounded_invariant_witness :
    WFQ (applyOp initialState QueueOp.advance) ∧
    (applyOp initialState QueueOp.advance).played_idx ≤
      (applyOp initialState QueueOp.advance).song_list.length :=
  (played_idx_bounded_invariant initialState QueueOp.advance).2 (by decide)

/-- C7: a trace of appends from the empty queue assigns sequence numbers
exactly `1, 2, 3, ...` in arrival order with no gaps and no reuse (the
final map is literally the arrival list indexed by `1..len`), and each
single append stores its entry at `current_idx + 1` and increments the
counter. -/
theorem append_seq_numbers_dense (entries : List Song) (s : BotState)
    (e : Song) :
    (appendAll initialState entries).song_list =
      (List.range' 1 entries.length).zip entries ∧
    (appendAll initialState entries).current_idx = entries.length ∧
    (storeSong s e).current_idx = s.current_idx + 1 ∧
    lookupA (storeSong s e).song_list (s.current_idx + 1) = some e := by
  obtain ⟨h1, h2, h3, h4⟩ :=
    appendAll_spec entries initialState (by intro p hp; cases hp)
  refine ⟨?_, ?_, rfl, lookupA_storeSong_self s e⟩
  · rw [h1]
    simp [initialState]
  · rw [h2]
    simp [initialState]

/-- C8 (counterexample): the stored title is not the text with the
4-character marker stripped: for the message "!reqAB" the poller stores
title "B", not "AB", because the code strips 5 characters. -/
theorem request_marker_strip_counterexample :
    forwardedRequest ['!', 'r', 'e', 'q', 'A', 'B'] ['x'] =
      some ⟨['B'], ['x']⟩ ∧
    (['B'] : List Char) ≠ ['A', 'B'] := by decide

/-- C8 (amended): an item is forwarded to the queue iff its lowercased
text starts with the marker "!req"; a forwarded item is stored with title
equal to the text minus its first five characters (the marker plus one
further character, normally the separating space) and requester equal to
the author name. -/
theorem request_filter_and_strip (text author : List Char) :
    ((forwardedRequest text author).isSome = true ↔
      startsWith (text.map Char.toLower) reqMarker = true) ∧
    (∀ e, forwardedRequest text author = some e →
      e.title = text.drop 5 ∧ e.requester = author) ∧
    (∀ e, forwardedRequest text author = some e →
      ∀ s, processChatItem s text author = storeSong s e) ∧
    (forwardedRequest text author = none →
      ∀ s, processChatItem s text author = s) := by
  refine ⟨?_, ?_, ?_, ?_⟩
  · unfold forwardedRequest
    by_cases hm : startsWith (text.map Char.toLower) reqMarker = true
    · rw [if_pos hm]
      simp [hm]
    · rw [if_neg hm]
      simp [hm]
  · intro e he
    unfold forwardedRequest at he
    by_cases hm : startsWith (text.map Char.toLower) reqMarker = true
    · rw [if_pos hm] at he
      injection he with he
      rw [← he]
      exact ⟨rfl, rfl⟩
    · rw [if_neg hm] at he
      cases he
  · intro e he s
    simp only [processChatItem, he]
  · intro hnone s
    simp only [processChatItem, hnone]

theorem request_filter_and_strip_witness :
    (⟨['X'], ['u']⟩ : Song).title =
      (['!', 'r', 'e', 'q', ' ', 'X'] : List Char).drop 5 ∧
    (⟨['X'], ['u']⟩ : Song).requester = ['u'] :=
  (request_filter_and_strip ['!', 'r', 'e', 'q', ' ', 'X'] ['u']).2.1
    ⟨['X'], ['u']⟩ (by decide)

/-- C9: executing the start command — for any URL parse outcome, any
client availability, and whether or not a session gets registered —
leaves the song queue (entries, sequence counter, playedIndex)
unchanged; the queue reset at lines 180-182 is commented out. -/
theorem start_leaves_queue_unchanged
    (extract_id : List Char → Option (List Char)) (ok : Bool)
    (s : BotState) (channel : Nat) (url : List Char) :
    (startLiveChat extract_id ok s channel url).1.song_list = s.song_list ∧
    (startLiveChat extract_id ok s channel url).1.current_idx =
      s.current_idx ∧
    (startLiveChat extract_id ok s channel url).1.played_idx =
      s.played_idx := by
  unfold startLiveChat
  by_cases h1 : ¬ ok = true
  · rw [if_pos h1]
    exact ⟨rfl, rfl, rfl⟩
  · rw [if_neg h1]
    cases hx : extract_id url with
    | none => exact ⟨rfl, rfl, rfl⟩
    | some vid =>
        by_cases h2 : (lookupA s.active_streams channel).isSome = true
        · simp only [if_pos h2]
          exact ⟨trivial, trivial, trivial⟩
        · simp only [if_neg h2]
          exact ⟨trivial, trivial, trivial⟩

/-- C10: the sequence counter always equals the number of stored entries
after every completed operation (append stores at `counter + 1` and
increments; delete resets the counter to the rebuilt map's size), so the
delete range check against the counter coincides with a check against the
queue size. -/
theorem counter_equals_size_invariant (s : BotState) (op : QueueOp) :
    initialState.current_idx = initialState.song_list.length ∧
    (WFQ s → (applyOp s op).current_idx = (applyOp s op).song_list.length ∧
      WFQ (applyOp s op)) := by
  refine ⟨rfl, fun h => ?_⟩
  have h2 := wfq_applyOp s op h
  exact ⟨(wfq_length _ h2).symm, h2⟩

theorem counter_equals_size_invariant_witness :
    (applyOp initialState
      (QueueOp.chat ['!', 'r', 'e', 'q', ' ', 'X'] ['u'])).current_idx =
      (applyOp initialState
        (QueueOp.chat ['!', 'r', 'e', 'q', ' ', 'X'] ['u'])).song_list.length ∧
    WFQ (applyOp initialState
      (QueueOp.chat ['!', 'r', 'e', 'q', ' ', 'X'] ['u'])) :=
  (counter_equals_size_invariant initialState
    (QueueOp.chat ['!', 'r', 'e', 'q', ' ', 'X'] ['u'])).2 (by decide)
